import Mathlib

/-!
Verification development for the adaptix broaching code generator
(`src/adaptix/_internal/conversion/broaching/code_generator.py`) and the
request/provider resolution protocol described in the specification.

Python runtime objects are modelled by the closed inductive `Obj`;
machine-level details (interning, hashing) are irrelevant to the
properties verified here, which only need decidable identity of objects.
-/

namespace Adaptix

/-- Model of the Python runtime objects that flow through the code
generator: literal-safe scalars, function objects (carrying an optional
`__name__` attribute and an identity tag), opaque non-literal objects
(identity tag only), and `inspect.Signature` objects (ordered parameter
names). Equality of `Obj` models Python `==`/`is` on these objects, which
for the function and blob constructors is object identity. -/
inductive Obj where
  | vint (n : Int)
  | vstr (s : String)
  | vbool (b : Bool)
  | vnone
  | func (dname : Option String) (uid : Nat)
  | blob (uid : Nat)
  | sig (params : List String)
deriving DecidableEq, Repr

/-- Errors surfaced by the namespace / generator layer: `nameCollision`
models the `NameCollision` failure of the raw namespace `add`, and
`runtimeFailure` models the unreachable `raise RuntimeError` at the end of
`register_mangled`'s probe loop. -/
inductive Err where
  | nameCollision
  | runtimeFailure
deriving DecidableEq, Repr

/-- The single-quote character, used by the model of Python `repr` for
strings. -/
def squote : String := String.singleton (Char.ofNat 39)

/-- Modelled from the spec: Python `repr` of a short string without
escape-needing characters (the only strings the verified properties
exercise): the text wrapped in single quotes. -/
def pyRepr (s : String) : String := squote ++ s ++ squote

/-- Modelled from the spec: `get_literal_expr` (`code_tools/utils.py`, not
in the provided sources) returns a safe literal source rendering for
numbers, strings, booleans and the none-value, and `None` (here `none`)
for any other object. Containers are not needed by the verified claims and
are not part of the `Obj` model. -/
def getLiteralExpr : Obj → Option String
  | .vint n => some (toString n)
  | .vstr s => some (pyRepr s)
  | .vbool b => some (if b then "True" else "False")
  | .vnone => some "None"
  | _ => none

/-- Modelled from the spec: `BuiltinContextNamespace`
(`code_tools/context_namespace.py`, not in the provided sources): a
mapping from identifier name to bound runtime object (`binds`, kept in
insertion order — this is the `.dict` the generator returns as the capture
table) plus the set of occupied names reserved by the target signature's
parameters. -/
structure CtxNamespace where
  occupied : List String
  binds : List (String × Obj)
deriving DecidableEq, Repr

/-- Membership test of the namespace (`__contains__`): a name is contained
when it is bound or occupied (per the spec, a name handed out may never
alias an occupied name, so occupied names count as taken). -/
def CtxNamespace.mem (ns : CtxNamespace) (n : String) : Bool :=
  ns.binds.any (fun p => p.1 == n) || ns.occupied.contains n

/-- Modelled from the spec: raw `add(name, object)` fails with
`NameCollision` if `name` is already bound or occupied; otherwise it binds
`name` to `object`. -/
def CtxNamespace.add (ns : CtxNamespace) (n : String) (obj : Obj) :
    Except Err CtxNamespace :=
  if ns.mem n then .error .nameCollision
  else .ok { ns with binds := ns.binds ++ [(n, obj)] }

/-- `GenState` (`code_generator.py`, lines 35-56): the context namespace
plus the per-prefix monotonic counter (`defaultdict(lambda: 0)`). -/
structure GenState where
  ns : CtxNamespace
  counter : List (String × Nat)
deriving DecidableEq, Repr

/-- Current value of the per-prefix counter (0 when the prefix was never
bumped, as for `defaultdict(lambda: 0)`). -/
def GenState.getCount (st : GenState) (pfx : String) : Nat :=
  match st.counter.lookup pfx with
  | some k => k
  | none => 0

/-- Increment the per-prefix counter. -/
def GenState.bumpCount (st : GenState) (pfx : String) : GenState :=
  { st with counter := (pfx, st.getCount pfx + 1) :: st.counter.eraseP (fun p => p.1 == pfx) }

/-- Bound on the probe loop of `register_mangled`: among the first
`|binds| + |occupied| + 1` probed names at least one is free, so the
bounded search below is total where the Python `itertools.count(1)` loop
is unbounded. -/
def CtxNamespace.fuel (ns : CtxNamespace) : Nat :=
  ns.binds.length + ns.occupied.length + 1

/-- The probe of `register_mangled`'s loop: the least `i ≥ start` (within
`fuel` steps) such that `base_i` is not contained in the namespace. -/
def findFreeSuffix (ns : CtxNamespace) (base : String) : Nat → Nat → Option Nat
  | 0, _ => none
  | fu + 1, i =>
    if ns.mem (base ++ "_" ++ toString i) then findFreeSuffix ns base fu (i + 1)
    else some i

/-- `GenState.register_mangled` (`code_generator.py`, lines 46-56),
embedded faithfully: if `base` is free it is bound and returned; otherwise
the loop probes `base_1`, `base_2`, … for a free name and, having found
one, calls `add(base, obj)` — on the already-taken `base`, exactly as
line 54 of the source does — before returning the probed name. -/
def registerMangled (st : GenState) (base : String) (obj : Obj) :
    Except Err (String × GenState) :=
  if st.ns.mem base then
    match findFreeSuffix st.ns base st.ns.fuel 1 with
    | some i =>
      match st.ns.add base obj with
      | .ok ns2 => .ok (base ++ "_" ++ toString i, { st with ns := ns2 })
      | .error e => .error e
    | none => .error .runtimeFailure
  else
    match st.ns.add base obj with
    | .ok ns2 => .ok (base, { st with ns := ns2 })
    | .error e => .error e

/-- `GenState.register_next_id` (`code_generator.py`, lines 40-44): read
the per-prefix counter, increment it, and delegate `{prefix}_{number}` to
`register_mangled`. -/
def registerNextId (st : GenState) (pfx : String) (obj : Obj) :
    Except Err (String × GenState) :=
  let number := st.getCount pfx
  let st1 := st.bumpCount pfx
  registerMangled st1 (pfx ++ "_" ++ toString number) obj

/-- One call of the hygienic-allocation API of `GenState`: either
`register_next_id` (the spec's `allocate`) or `register_mangled` (the
spec's `bind_exact`). -/
inductive AllocOp where
  | nextId (pfx : String) (obj : Obj)
  | mangled (base : String) (obj : Obj)
deriving DecidableEq, Repr

/-- Run one allocation call. -/
def runOp (st : GenState) : AllocOp → Except Err (String × GenState)
  | .nextId p o => registerNextId st p o
  | .mangled b o => registerMangled st b o

/-- Run a sequence of allocation calls against one generator state,
collecting the returned names in order; a raised error aborts the
sequence (as a Python exception would). -/
def runOps (st : GenState) : List AllocOp → List String × GenState
  | [] => ([], st)
  | op :: rest =>
    match runOp st op with
    | .error _ => ([], st)
    | .ok (n, st1) =>
      let (ns1, st2) := runOps st1 rest
      (n :: ns1, st2)

/-- The generator state `produce_code` starts from: a namespace
pre-occupied with the target signature's parameter names, no bindings, all
counters at zero. -/
def initState (params : List String) : GenState :=
  { ns := { occupied := params, binds := [] }, counter := [] }

/-- Modelled from the spec: the accessor descriptors of
`model_tools/definitions.py` (not in the provided sources):
`DescriptorAccessor` carries an attribute name, `ItemAccessor` carries a
key; both carry a `getter` function object used when no syntactic access
can be emitted. -/
inductive PyAccessor where
  | descriptor (attrName : String) (getter : Obj)
  | item (key : Obj) (getter : Obj)
deriving DecidableEq, Repr

/-- The getter function object of an accessor. -/
def PyAccessor.getter : PyAccessor → Obj
  | .descriptor _ g => g
  | .item _ g => g

mutual
/-- Modelled from the spec: the `BroachingPlan` tree
(`conversion/broaching/definitions.py`, not in the provided sources):
parameter references, constants, function calls with ordered argument
slots, and accessor applications. -/
inductive Plan where
  | parameter (name : String)
  | constant (value : Obj)
  | function (fn : Obj) (args : ArgList)
  | accessor (target : Plan) (acc : PyAccessor)

/-- Ordered list of argument slots of a function-call plan node. -/
inductive ArgList where
  | nil
  | cons (a : PlanArg) (rest : ArgList)

/-- One argument slot: `PositionalArg`, `KeywordArg`, `UnpackIterable` or
`UnpackMapping`. -/
inductive PlanArg where
  | positional (element : Plan)
  | keyword (key : String) (element : Plan)
  | unpackIterable (element : Plan)
  | unpackMapping (element : Plan)
end

/-- The designated identity function `as_is_stub`
(`special_cases_optimization.py`): a function object named
`"as_is_stub"`; plan equality with it models Python `==` on the function
object. -/
def asIsStub : Obj := .func (some "as_is_stub") 0

/-- `getattr(obj, '__name__', None)`: only function objects carry a
`__name__` in this model. -/
def Obj.dunderName : Obj → Option String
  | .func n _ => n
  | _ => none

/-- ASCII model of Python `str.isidentifier`: nonempty, first character a
letter or underscore, remaining characters letters, digits or underscores
(sufficient for the identifiers the verified claims exercise). -/
def isPyIdent (s : String) : Bool :=
  match s.toList with
  | [] => false
  | c :: cs => (c.isAlpha || c == '_') && cs.all (fun d => d.isAlphanum || d == '_')

mutual
/-- Model of the Python `ast` expression nodes the generator builds:
`Name`, parsed literal source (`ast.parse` of a literal rendering),
`Call` (positional arguments then keywords), `Starred`, `Attribute` and
`Subscript` (whose key is kept as the source text the f-string template
put there). -/
inductive PyExpr where
  | name (id : String)
  | lit (src : String)
  | call (fn : PyExpr) (args : PyArgs) (kws : PyKws)
  | starred (e : PyExpr)
  | attribute (target : PyExpr) (attr : String)
  | subscript (target : PyExpr) (keySrc : String)

/-- Positional-argument list of a `Call` node. -/
inductive PyArgs where
  | nil
  | cons (e : PyExpr) (rest : PyArgs)

/-- Keyword list of a `Call` node; a `none` key models `ast.keyword`
without `arg`, i.e. `**` unpacking. -/
inductive PyKws where
  | nil
  | cons (k : Option String) (e : PyExpr) (rest : PyKws)
end

mutual
/-- `compat_ast_unparse` on the expression nodes of this model. -/
def unparse : PyExpr → String
  | .name id => id
  | .lit s => s
  | .call fn args kws =>
    unparse fn ++ "(" ++ String.intercalate ", " (unparseArgs args ++ unparseKws kws) ++ ")"
  | .starred e => "*" ++ unparse e
  | .attribute t a => unparse t ++ "." ++ a
  | .subscript t k => unparse t ++ "[" ++ k ++ "]"

/-- Unparse each positional argument. -/
def unparseArgs : PyArgs → List String
  | .nil => []
  | .cons e rest => unparse e :: unparseArgs rest

/-- Unparse each keyword (`k=v`, or `**v` for an unpack slot). -/
def unparseKws : PyKws → List String
  | .nil => []
  | .cons k e rest =>
    (match k with
     | some key => key ++ "=" ++ unparse e
     | none => "**" ++ unparse e) :: unparseKws rest
end

/-- The name-allocation step of `_gen_function_element`
(`code_generator.py`, lines 121-124): `register_mangled` under the
callable's own `__name__` when present, else `register_next_id` under the
`func` prefix. -/
def registerFunc (st : GenState) (f : Obj) : Except Err (String × GenState) :=
  match f.dunderName with
  | some nm => registerMangled st nm f
  | none => registerNextId st "func" f

mutual
/-- `_gen_plan_element_dispatch` and the four `_gen_*_element` methods
(`code_generator.py`, lines 91-175), embedded faithfully, threading the
generator state and surfacing namespace errors. The item-accessor literal
branch renders the key as `{literal_expr!r}` — the `repr` of the rendered
literal text — exactly as line 167 of the source does. -/
def genPlan (st : GenState) : Plan → Except Err (PyExpr × GenState)
  | .parameter n => .ok (.name n, st)
  | .constant v =>
    match getLiteralExpr v with
    | some expr => .ok (.lit expr, st)
    | none =>
      match registerNextId st "constant" v with
      | .ok (n, st1) => .ok (.name n, st1)
      | .error e => .error e
  | .function f args =>
    match args with
    | .cons (.positional e) .nil =>
      if f = asIsStub then genPlan st e
      else
        match registerFunc st f with
        | .error e2 => .error e2
        | .ok (n, st1) =>
          match genArgs st1 (.cons (.positional e) .nil) with
          | .error e2 => .error e2
          | .ok (ps, ks, st2) => .ok (.call (.name n) ps ks, st2)
    | other =>
      match registerFunc st f with
      | .error e2 => .error e2
      | .ok (n, st1) =>
        match genArgs st1 other with
        | .error e2 => .error e2
        | .ok (ps, ks, st2) => .ok (.call (.name n) ps ks, st2)
  | .accessor t acc =>
    match genPlan st t with
    | .error e => .error e
    | .ok (te, st1) =>
      match acc with
      | .descriptor attr _ =>
        if isPyIdent attr then .ok (.attribute te attr, st1)
        else .ok (.call (.name "getattr") (.cons te (.cons (.lit (pyRepr attr)) .nil)) .nil, st1)
      | .item key g =>
        match getLiteralExpr key with
        | some le => .ok (.subscript te (pyRepr le), st1)
        | none =>
          match registerNextId st1 "accessor" g with
          | .error e => .error e
          | .ok (n, st2) => .ok (.call (.name n) (.cons te .nil) .nil, st2)

/-- The argument loop of `_gen_function_element` (`code_generator.py`,
lines 126-142): lower each slot's element in declaration order, appending
positional and starred slots to the positional list and keyword and
mapping-unpack slots to the keyword list. -/
def genArgs (st : GenState) : ArgList → Except Err (PyArgs × PyKws × GenState)
  | .nil => .ok (.nil, .nil, st)
  | .cons a rest =>
    match a with
    | .positional e =>
      match genPlan st e with
      | .error err => .error err
      | .ok (x, st1) =>
        match genArgs st1 rest with
        | .error err => .error err
        | .ok (ps, ks, st2) => .ok (.cons x ps, ks, st2)
    | .keyword k e =>
      match genPlan st e with
      | .error err => .error err
      | .ok (x, st1) =>
        match genArgs st1 rest with
        | .error err => .error err
        | .ok (ps, ks, st2) => .ok (ps, .cons (some k) x ks, st2)
    | .unpackIterable e =>
      match genPlan st e with
      | .error err => .error err
      | .ok (x, st1) =>
        match genArgs st1 rest with
        | .error err => .error err
        | .ok (ps, ks, st2) => .ok (.cons (.starred x) ps, ks, st2)
    | .unpackMapping e =>
      match genPlan st e with
      | .error err => .error err
      | .ok (x, st1) =>
        match genArgs st1 rest with
        | .error err => .error err
        | .ok (ps, ks, st2) => .ok (ps, .cons none x ks, st2)
end

/-- The non-optimized tail of `_gen_function_element`: allocate the
callable's name, lower the argument slots, and build the `Call` node.
`genPlan` on a function node computes exactly this whenever the
identity-passthrough guard does not fire. -/
def genTail (st : GenState) (f : Obj) (args : ArgList) : Except Err (PyExpr × GenState) :=
  match registerFunc st f with
  | .error e2 => .error e2
  | .ok (n, st1) =>
    match genArgs st1 args with
    | .error e2 => .error e2
    | .ok (ps, ks, st2) => .ok (.call (.name n) ps ks, st2)

/-- Rendering of the annotation-stripped signature `(a, b, c)` used in the
emitted `def` line. -/
def renderParams (params : List String) : String :=
  "(" ++ String.intercalate ", " params ++ ")"

/-- The text before the lowered body expression in the emitted source:
the `def` line and the `return` keyword of the single-statement body. -/
def renderSrcPre (closureName : String) (params : List String) : String :=
  "def " ++ closureName ++ renderParams params ++ ":\n    return "

/-- The text after the lowered body expression in the emitted source: the
`__signature__` attachment line. -/
def renderSrcPost (closureName : String) : String :=
  "\n" ++ closureName ++ ".__signature__ = _closure_signature\n"

/-- The whole emitted source text (`CodeBuilder` output of `produce_code`,
lines 84-88 of `code_generator.py`): the `def` line, the indented
`return <body>` statement, and the signature attachment. -/
def renderSrc (closureName : String) (params : List String) (bodySrc : String) : String :=
  renderSrcPre closureName params ++ (bodySrc ++ renderSrcPost closureName)

/-- `BuiltinBroachingCodeGenerator.produce_code` (`code_generator.py`,
lines 74-89): build the namespace pre-occupied with the signature's
parameter names, bind `_closure_signature` to the signature object, lower
the plan, and return the rendered source together with the namespace's
binding dict (the capture table). -/
def produceCode (plan : Plan) (closureName : String) (params : List String) :
    Except Err (String × List (String × Obj)) :=
  let ns0 : CtxNamespace := { occupied := params, binds := [] }
  match ns0.add "_closure_signature" (.sig params) with
  | .error e => .error e
  | .ok ns1 =>
    match genPlan { ns := ns1, counter := [] } plan with
    | .error e => .error e
    | .ok (body, st1) =>
      .ok (renderSrc closureName params (unparse body), st1.ns.binds)

/-- Modelled from the spec: the outcome of one provider invocation in the
request/provider protocol (`provider/essential.py`, not in the provided
sources): an answer, the recoverable refusal signal (`CannotProvide`,
carrying a reason), or any other raised error. -/
inductive AttemptResult (α ε : Type) where
  | answer (a : α)
  | refusal (reason : String)
  | failure (e : ε)
deriving DecidableEq, Repr

/-- Modelled from the spec: a provider in a chain, guarded by its request
checker (`accepts`; a provider with no checker is modelled by a constantly
true checker) and offering `attempt`. -/
structure ChainProvider (ρ α ε : Type) where
  accepts : ρ → Bool
  attempt : ρ → AttemptResult α ε

/-- Modelled from the spec: the outcome of `Mediator.resolve`: an answer,
the terminal `NoProviderFound` failure, or a provider's own non-refusal
error propagated unchanged. -/
inductive ResolveOutcome (α ε : Type) where
  | found (a : α)
  | noProviderFound
  | fatal (e : ε)
deriving DecidableEq, Repr

/-- Modelled from the spec: the mediator loop from position `i` of the
chain: skip providers whose checker rejects; invoke the first accepting
provider; return its answer immediately, continue past a refusal, and
propagate any other error immediately. The second component records the
indices of the providers actually invoked, in order. -/
def resolveFrom {ρ α ε : Type} (i : Nat) :
    List (ChainProvider ρ α ε) → ρ → ResolveOutcome α ε × List Nat
  | [], _ => (.noProviderFound, [])
  | p :: ps, r =>
    if p.accepts r then
      match p.attempt r with
      | .answer a => (.found a, [i])
      | .refusal _ =>
        let (o, t) := resolveFrom (i + 1) ps r
        (o, i :: t)
      | .failure e => (.fatal e, [i])
    else resolveFrom (i + 1) ps r

/-- Modelled from the spec: `Mediator.resolve` over a whole chain,
together with the trace of invoked provider indices. -/
def resolve {ρ α ε : Type} (chain : List (ChainProvider ρ α ε)) (r : ρ) :
    ResolveOutcome α ε × List Nat :=
  resolveFrom 0 chain r

/-! ## Lemmas about the namespace and the allocators -/

theorem CtxNamespace.add_ok {ns : CtxNamespace} {n : String} {obj : Obj} {ns2 : CtxNamespace}
    (h : ns.add n obj = .ok ns2) :
    ns.mem n = false ∧ ns2 = { ns with binds := ns.binds ++ [(n, obj)] } := by
  by_cases hm : ns.mem n
  · simp [CtxNamespace.add, hm] at h
  · simp [CtxNamespace.add, hm] at h
    exact ⟨by simpa using hm, h.symm⟩

theorem CtxNamespace.add_mem_error {ns : CtxNamespace} {n : String} {obj : Obj}
    (h : ns.mem n = true) : ns.add n obj = .error .nameCollision := by
  simp [CtxNamespace.add, h]

/-- Appending bindings preserves membership. -/
theorem CtxNamespace.mem_mono {occ : List String} {b l : List (String × Obj)} {m : String}
    (h : CtxNamespace.mem ⟨occ, b⟩ m = true) :
    CtxNamespace.mem ⟨occ, b ++ l⟩ m = true := by
  simp only [CtxNamespace.mem, List.any_append, Bool.or_eq_true] at h ⊢
  tauto

/-- A name bound in a namespace is a member of it. -/
theorem CtxNamespace.mem_of_bind {occ : List String} {b : List (String × Obj)}
    {n : String} (obj : Obj) (h : (n, obj) ∈ b) :
    CtxNamespace.mem ⟨occ, b⟩ n = true := by
  simp only [CtxNamespace.mem, Bool.or_eq_true, List.any_eq_true]
  exact Or.inl ⟨(n, obj), h, by simp⟩

/-- An occupied name is a member of the namespace. -/
theorem CtxNamespace.mem_of_occupied {occ : List String} (b : List (String × Obj))
    {n : String} (h : n ∈ occ) : CtxNamespace.mem ⟨occ, b⟩ n = true := by
  simp [CtxNamespace.mem, h]

/-- `register_mangled` can only succeed through its collision-free branch:
the returned name is the base itself, which was free and is now bound; on
a collision the loop's `add(base, obj)` (line 54 of the source) necessarily
raises, so no name is returned. -/
theorem registerMangled_ok {st : GenState} {base : String} {obj : Obj}
    {n : String} {st2 : GenState}
    (h : registerMangled st base obj = .ok (n, st2)) :
    n = base ∧ st.ns.mem base = false ∧
      st2.ns.occupied = st.ns.occupied ∧
      st2.ns.binds = st.ns.binds ++ [(base, obj)] ∧
      st2.counter = st.counter := by
  by_cases hm : st.ns.mem base
  · rw [registerMangled, if_pos hm] at h
    rcases hfs : findFreeSuffix st.ns base st.ns.fuel 1 with _ | i
    · rw [hfs] at h; simp at h
    · rw [hfs, CtxNamespace.add_mem_error hm] at h; simp at h
  · rw [registerMangled, if_neg hm] at h
    rcases hadd : st.ns.add base obj with e | ns2
    · rw [hadd] at h; simp at h
    · rw [hadd] at h
      simp only [Except.ok.injEq, Prod.mk.injEq] at h
      obtain ⟨hfree, hns⟩ := CtxNamespace.add_ok hadd
      refine ⟨h.1.symm, hfree, ?_, ?_, ?_⟩ <;> simp [← h.2, hns]

/-- `register_next_id` success spec: the returned name was free before
the call and is appended to the bindings; occupied names are unchanged. -/
theorem registerNextId_ok {st : GenState} {pfx : String} {obj : Obj}
    {n : String} {st2 : GenState}
    (h : registerNextId st pfx obj = .ok (n, st2)) :
    n = pfx ++ "_" ++ toString (st.getCount pfx) ∧ st.ns.mem n = false ∧
      st2.ns.occupied = st.ns.occupied ∧
      st2.ns.binds = st.ns.binds ++ [(n, obj)] := by
  rw [registerNextId] at h
  have hb : (st.bumpCount pfx).ns = st.ns := rfl
  obtain ⟨hn, hfree, hocc, hbinds, _⟩ := registerMangled_ok h
  rw [hb] at hfree hocc hbinds
  exact ⟨hn, hn ▸ hfree, hocc, by rw [hbinds, hn]⟩

/-- Success spec common to both allocation calls: the returned name was
free, is now bound, and the namespace otherwise only grows. -/
theorem runOp_ok {st : GenState} {op : AllocOp} {n : String} {st2 : GenState}
    (h : runOp st op = .ok (n, st2)) :
    st.ns.mem n = false ∧ st2.ns.occupied = st.ns.occupied ∧
      ∃ obj, st2.ns.binds = st.ns.binds ++ [(n, obj)] := by
  cases op with
  | nextId p o =>
    obtain ⟨_, hfree, hocc, hbinds⟩ := registerNextId_ok h
    exact ⟨hfree, hocc, o, hbinds⟩
  | mangled b o =>
    obtain ⟨hn, hfree, hocc, hbinds, _⟩ := registerMangled_ok h
    exact ⟨hn ▸ hfree, hocc, o, hn ▸ hbinds⟩

/-- A successful allocation preserves namespace membership. -/
theorem runOp_mem_mono {st : GenState} {op : AllocOp} {n m : String} {st2 : GenState}
    (h : runOp st op = .ok (n, st2)) (hm : st.ns.mem m = true) :
    st2.ns.mem m = true := by
  obtain ⟨-, hocc, obj, hbinds⟩ := runOp_ok h
  rcases st with ⟨⟨occ, b⟩, c⟩
  rcases st2 with ⟨⟨occ2, b2⟩, c2⟩
  simp only at hocc hbinds
  subst hocc hbinds
  exact CtxNamespace.mem_mono hm

/-- A successful allocation makes the returned name a member. -/
theorem runOp_mem_self {st : GenState} {op : AllocOp} {n : String} {st2 : GenState}
    (h : runOp st op = .ok (n, st2)) : st2.ns.mem n = true := by
  obtain ⟨-, -, obj, hbinds⟩ := runOp_ok h
  rcases st2 with ⟨⟨occ2, b2⟩, c2⟩
  simp only at hbinds
  subst hbinds
  exact CtxNamespace.mem_of_bind obj (by simp)

/-- Invariant behind the hygienic-naming property: every name returned by
a sequence of allocation calls was free in the starting namespace, and the
returned names are pairwise distinct. -/
theorem runOps_spec (ops : List AllocOp) :
    ∀ st : GenState, (runOps st ops).1.Nodup ∧
      ∀ m ∈ (runOps st ops).1, st.ns.mem m = false := by
  induction ops with
  | nil => intro st; simp [runOps]
  | cons op rest ih =>
    intro st
    rcases hop : runOp st op with e | ⟨n, st1⟩
    · simp [runOps, hop]
    · obtain ⟨ihnd, ihfresh⟩ := ih st1
      have hself := runOp_mem_self hop
      have hfresh := (runOp_ok hop).1
      constructor
      · simp only [runOps, hop]
        refine List.Nodup.cons ?_ ihnd
        intro hmem
        rw [ihfresh n hmem] at hself
        exact Bool.false_ne_true hself
      · intro m hm
        simp only [runOps, hop, List.mem_cons] at hm
        rcases hm with rfl | hm
        · exact hfresh
        · cases hmem : st.ns.mem m with
          | false => rfl
          | true => exact absurd (runOp_mem_mono hop hmem) (by simp [ihfresh m hm])

/-- Success spec of the callable-name allocation of
`_gen_function_element`. -/
theorem registerFunc_ok {st : GenState} {f : Obj} {n : String} {st1 : GenState}
    (h : registerFunc st f = .ok (n, st1)) :
    st1.ns.occupied = st.ns.occupied ∧ st1.ns.binds = st.ns.binds ++ [(n, f)] := by
  rw [registerFunc] at h
  rcases hd : f.dunderName with _ | nm <;> rw [hd] at h
  · obtain ⟨_, _, hocc, hbinds⟩ := registerNextId_ok h
    exact ⟨hocc, hbinds⟩
  · obtain ⟨hn, _, hocc, hbinds, _⟩ := registerMangled_ok h
    exact ⟨hocc, hn ▸ hbinds⟩

/-- On a function node whose argument list is not a single positional
slot, `genPlan` computes the non-optimized tail. -/
theorem genPlan_function_not_single (st : GenState) (f : Obj) (args : ArgList)
    (hnot : ∀ e0, args ≠ .cons (.positional e0) .nil) :
    genPlan st (.function f args) = genTail st f args := by
  cases args with
  | nil => simp [genPlan, genTail]
  | cons a rest =>
    cases a with
    | positional e0 =>
      cases rest with
      | nil => exact absurd rfl (hnot e0)
      | cons b rest2 => simp [genPlan, genTail]
    | keyword k e0 => simp [genPlan, genTail]
    | unpackIterable e0 => simp [genPlan, genTail]
    | unpackMapping e0 => simp [genPlan, genTail]

/-- On a single-positional call of a non-identity callable, `genPlan`
computes the non-optimized tail. -/
theorem genPlan_function_single_not_id (st : GenState) (f : Obj) (e0 : Plan)
    (hne : f ≠ asIsStub) :
    genPlan st (.function f (.cons (.positional e0) .nil)) =
      genTail st f (.cons (.positional e0) .nil) := by
  simp [genPlan, genTail, hne]

/-- The identity-passthrough branch of `_gen_function_element`: a
single-positional call of `as_is_stub` lowers to its argument's own
lowering. -/
theorem genPlan_function_identity (st : GenState) (e0 : Plan) :
    genPlan st (.function asIsStub (.cons (.positional e0) .nil)) = genPlan st e0 := by
  simp [genPlan]

mutual
/-- Lowering a plan node only appends to the capture bindings and leaves
the occupied names unchanged. -/
theorem genPlan_mono (st : GenState) (p : Plan) :
    ∀ e st2, genPlan st p = .ok (e, st2) →
      st2.ns.occupied = st.ns.occupied ∧ ∃ l, st2.ns.binds = st.ns.binds ++ l := by
  intro e st2 h
  cases p with
  | parameter n =>
    simp only [genPlan, Except.ok.injEq, Prod.mk.injEq] at h
    exact ⟨by rw [h.2], [], by rw [h.2]; simp⟩
  | constant v =>
    rcases hle : getLiteralExpr v with _ | expr <;> simp only [genPlan, hle] at h
    · rcases hreg : registerNextId st "constant" v with err | ⟨n, st1⟩ <;> rw [hreg] at h <;> dsimp only at h
      · simp at h
      · simp only [Except.ok.injEq, Prod.mk.injEq] at h
        obtain ⟨_, _, hocc, hbinds⟩ := registerNextId_ok hreg
        exact ⟨by rw [← h.2]; exact hocc, [(n, v)], by rw [← h.2]; exact hbinds⟩
    · simp only [Except.ok.injEq, Prod.mk.injEq] at h
      exact ⟨by rw [← h.2], [], by rw [← h.2]; simp⟩
  | function f args =>
    cases args with
    | nil =>
      rw [genPlan_function_not_single st f .nil (by intro e0 he; cases he)] at h
      exact genTail_mono st f .nil e st2 h
    | cons a rest =>
      cases a with
      | positional e0 =>
        cases rest with
        | nil =>
          by_cases hid : f = asIsStub
          · subst hid
            rw [genPlan_function_identity st e0] at h
            exact genPlan_mono st e0 e st2 h
          · rw [genPlan_function_single_not_id st f e0 hid] at h
            exact genTail_mono st f (.cons (.positional e0) .nil) e st2 h
        | cons b rest2 =>
          rw [genPlan_function_not_single st f _ (by intro e1 he; cases he)] at h
          exact genTail_mono st f (.cons (.positional e0) (.cons b rest2)) e st2 h
      | keyword k e0 =>
        rw [genPlan_function_not_single st f _ (by intro e1 he; cases he)] at h
        exact genTail_mono st f (.cons (.keyword k e0) rest) e st2 h
      | unpackIterable e0 =>
        rw [genPlan_function_not_single st f _ (by intro e1 he; cases he)] at h
        exact genTail_mono st f (.cons (.unpackIterable e0) rest) e st2 h
      | unpackMapping e0 =>
        rw [genPlan_function_not_single st f _ (by intro e1 he; cases he)] at h
        exact genTail_mono st f (.cons (.unpackMapping e0) rest) e st2 h
  | accessor t acc =>
    simp only [genPlan] at h
    rcases ht : genPlan st t with err | ⟨te, st1⟩ <;> rw [ht] at h <;> dsimp only at h
    · simp at h
    · obtain ⟨hocc1, l1, hb1⟩ := genPlan_mono st t te st1 ht
      cases acc with
      | descriptor attr g =>
        by_cases hid : isPyIdent attr <;> simp only [hid, if_true, if_false,
          Except.ok.injEq, Prod.mk.injEq, Bool.false_eq_true] at h <;>
          exact ⟨by rw [← h.2]; exact hocc1, l1, by rw [← h.2]; exact hb1⟩
      | item key g =>
        dsimp only at h
        rcases hle : getLiteralExpr key with _ | le <;> rw [hle] at h <;> dsimp only at h
        · rcases hreg : registerNextId st1 "accessor" g with err | ⟨n, st3⟩ <;>
            rw [hreg] at h <;> dsimp only at h
          · simp at h
          · simp only [Except.ok.injEq, Prod.mk.injEq] at h
            obtain ⟨_, _, hocc3, hbinds3⟩ := registerNextId_ok hreg
            refine ⟨by rw [← h.2]; rw [hocc3, hocc1], l1 ++ [(n, g)], ?_⟩
            rw [← h.2, hbinds3, hb1, List.append_assoc]
        · simp only [Except.ok.injEq, Prod.mk.injEq] at h
          exact ⟨by rw [← h.2]; exact hocc1, l1, by rw [← h.2]; exact hb1⟩
termination_by (sizeOf p, 0)

/-- The non-optimized function-call tail only appends to the capture
bindings. -/
theorem genTail_mono (st : GenState) (f : Obj) (args : ArgList) :
    ∀ e st2, genTail st f args = .ok (e, st2) →
      st2.ns.occupied = st.ns.occupied ∧ ∃ l, st2.ns.binds = st.ns.binds ++ l := by
  intro e st2 h
  rw [genTail] at h
  rcases hreg : registerFunc st f with err | ⟨n, st1⟩ <;> rw [hreg] at h <;> dsimp only at h
  · simp at h
  · rcases hargs : genArgs st1 args with err | ⟨ps, ks, st3⟩ <;> rw [hargs] at h <;> dsimp only at h
    · simp at h
    · simp only [Except.ok.injEq, Prod.mk.injEq] at h
      obtain ⟨hocc1, hb1⟩ := registerFunc_ok hreg
      obtain ⟨hocc3, l3, hb3⟩ := genArgs_mono st1 args ps ks st3 hargs
      refine ⟨by rw [← h.2, hocc3, hocc1], [(n, f)] ++ l3, ?_⟩
      rw [← h.2, hb3, hb1, List.append_assoc]
termination_by (sizeOf args, 1)

/-- Lowering an argument list only appends to the capture bindings. -/
theorem genArgs_mono (st : GenState) (args : ArgList) :
    ∀ ps ks st2, genArgs st args = .ok (ps, ks, st2) →
      st2.ns.occupied = st.ns.occupied ∧ ∃ l, st2.ns.binds = st.ns.binds ++ l := by
  intro ps ks st2 h
  cases args with
  | nil =>
    simp only [genArgs, Except.ok.injEq, Prod.mk.injEq] at h
    exact ⟨by rw [← h.2.2], [], by rw [← h.2.2]; simp⟩
  | cons a rest =>
    cases a with
    | positional e0 =>
      simp only [genArgs] at h
      rcases hp : genPlan st e0 with err | ⟨x, st1⟩ <;> rw [hp] at h <;> dsimp only at h
      · simp at h
      · rcases hr : genArgs st1 rest with err | ⟨ps1, ks1, st3⟩ <;> rw [hr] at h <;> dsimp only at h
        · simp at h
        · simp only [Except.ok.injEq, Prod.mk.injEq] at h
          obtain ⟨hocc1, l1, hb1⟩ := genPlan_mono st e0 x st1 hp
          obtain ⟨hocc3, l3, hb3⟩ := genArgs_mono st1 rest ps1 ks1 st3 hr
          exact ⟨by rw [← h.2.2, hocc3, hocc1], l1 ++ l3,
            by rw [← h.2.2, hb3, hb1, List.append_assoc]⟩
    | keyword k e0 =>
      simp only [genArgs] at h
      rcases hp : genPlan st e0 with err | ⟨x, st1⟩ <;> rw [hp] at h <;> dsimp only at h
      · simp at h
      · rcases hr : genArgs st1 rest with err | ⟨ps1, ks1, st3⟩ <;> rw [hr] at h <;> dsimp only at h
        · simp at h
        · simp only [Except.ok.injEq, Prod.mk.injEq] at h
          obtain ⟨hocc1, l1, hb1⟩ := genPlan_mono st e0 x st1 hp
          obtain ⟨hocc3, l3, hb3⟩ := genArgs_mono st1 rest ps1 ks1 st3 hr
          exact ⟨by rw [← h.2.2, hocc3, hocc1], l1 ++ l3,
            by rw [← h.2.2, hb3, hb1, List.append_assoc]⟩
    | unpackIterable e0 =>
      simp only [genArgs] at h
      rcases hp : genPlan st e0 with err | ⟨x, st1⟩ <;> rw [hp] at h <;> dsimp only at h
      · simp at h
      · rcases hr : genArgs st1 rest with err | ⟨ps1, ks1, st3⟩ <;> rw [hr] at h <;> dsimp only at h
        · simp at h
        · simp only [Except.ok.injEq, Prod.mk.injEq] at h
          obtain ⟨hocc1, l1, hb1⟩ := genPlan_mono st e0 x st1 hp
          obtain ⟨hocc3, l3, hb3⟩ := genArgs_mono st1 rest ps1 ks1 st3 hr
          exact ⟨by rw [← h.2.2, hocc3, hocc1], l1 ++ l3,
            by rw [← h.2.2, hb3, hb1, List.append_assoc]⟩
    | unpackMapping e0 =>
      simp only [genArgs] at h
      rcases hp : genPlan st e0 with err | ⟨x, st1⟩ <;> rw [hp] at h <;> dsimp only at h
      · simp at h
      · rcases hr : genArgs st1 rest with err | ⟨ps1, ks1, st3⟩ <;> rw [hr] at h <;> dsimp only at h
        · simp at h
        · simp only [Except.ok.injEq, Prod.mk.injEq] at h
          obtain ⟨hocc1, l1, hb1⟩ := genPlan_mono st e0 x st1 hp
          obtain ⟨hocc3, l3, hb3⟩ := genArgs_mono st1 rest ps1 ks1 st3 hr
          exact ⟨by rw [← h.2.2, hocc3, hocc1], l1 ++ l3,
            by rw [← h.2.2, hb3, hb1, List.append_assoc]⟩
termination_by (sizeOf args, 0)
end

/-- Success spec of `produce_code`: the capture table starts with the
unconditional `_closure_signature` binding, whatever the plan adds after
it. -/
theorem produceCode_ok {plan : Plan} {cn : String} {params : List String}
    {src : String} {caps : List (String × Obj)}
    (h : produceCode plan cn params = .ok (src, caps)) :
    ∃ l, caps = ("_closure_signature", Obj.sig params) :: l := by
  rw [produceCode] at h
  rcases hadd : CtxNamespace.add { occupied := params, binds := [] } "_closure_signature"
      (.sig params) with e | ns1 <;> rw [hadd] at h <;> dsimp only at h
  · simp at h
  · rcases hgen : genPlan { ns := ns1, counter := [] } plan with e | ⟨body, st1⟩ <;>
      rw [hgen] at h <;> dsimp only at h
    · simp at h
    · simp only [Except.ok.injEq, Prod.mk.injEq] at h
      obtain ⟨-, hns1⟩ := CtxNamespace.add_ok hadd
      obtain ⟨-, l, hb⟩ := genPlan_mono _ plan body st1 hgen
      refine ⟨l, ?_⟩
      rw [← h.2, hb, hns1]
      simp

/-- Skipping a prefix of providers whose checkers all reject: the loop
reaches the rest of the chain with the index advanced and no invocation
recorded. -/
theorem resolveFrom_skip {ρ α ε : Type} (r : ρ) :
    ∀ (pre rest : List (ChainProvider ρ α ε)) (i : Nat),
      (∀ q ∈ pre, q.accepts r = false) →
      resolveFrom i (pre ++ rest) r = resolveFrom (i + pre.length) rest r := by
  intro pre
  induction pre with
  | nil => intro rest i _; simp
  | cons q pre' ih =>
    intro rest i hpre
    have hq : q.accepts r = false := hpre q (by simp)
    have hrest : ∀ q2 ∈ pre', q2.accepts r = false := fun q2 hq2 => hpre q2 (by simp [hq2])
    simp only [List.cons_append, resolveFrom, hq, Bool.false_eq_true, if_false]
    rw [show pre'.append rest = pre' ++ rest from rfl, ih rest (i + 1) hrest]
    congr 1
    simp only [List.length_cons]
    omega

/-- Passing a prefix of providers that either reject or refuse: the
outcome is the outcome of the rest of the chain, and every invocation
recorded over the prefix has index below the advanced position. -/
theorem resolveFrom_refusals {ρ α ε : Type} (r : ρ) :
    ∀ (pre rest : List (ChainProvider ρ α ε)) (i : Nat),
      (∀ q ∈ pre, q.accepts r = true → ∃ s, q.attempt r = .refusal s) →
      (resolveFrom i (pre ++ rest) r).1 = (resolveFrom (i + pre.length) rest r).1 ∧
      ∀ j ∈ (resolveFrom i (pre ++ rest) r).2,
        j ∈ (resolveFrom (i + pre.length) rest r).2 ∨ j < i + pre.length := by
  intro pre
  induction pre with
  | nil =>
    intro rest i _
    simp only [List.nil_append, List.length_nil, Nat.add_zero]
    exact ⟨trivial, fun j hj => Or.inl hj⟩
  | cons q pre' ih =>
    intro rest i hpre
    have hrest : ∀ q2 ∈ pre', q2.accepts r = true → ∃ s, q2.attempt r = .refusal s :=
      fun q2 hq2 => hpre q2 (by simp [hq2])
    have hlen : i + 1 + pre'.length = i + (q :: pre').length := by
      simp only [List.length_cons]; omega
    cases hq : q.accepts r with
    | false =>
      simp only [List.cons_append, resolveFrom, hq, Bool.false_eq_true, if_false]
      rw [show pre'.append rest = pre' ++ rest from rfl, ← hlen]
      exact ⟨(ih rest (i + 1) hrest).1, fun j hj =>
        ((ih rest (i + 1) hrest).2 j hj).imp id (fun h2 => by omega)⟩
    | true =>
      obtain ⟨s, hs⟩ := hpre q (by simp) hq
      simp only [List.cons_append, resolveFrom, hq, if_true, hs]
      rw [show pre'.append rest = pre' ++ rest from rfl]
      obtain ⟨ih1, ih2⟩ := ih rest (i + 1) hrest
      rw [← hlen]
      constructor
      · exact ih1
      · intro j hj
        simp only [List.mem_cons] at hj
        rcases hj with rfl | hj
        · right; omega
        · exact (ih2 j hj).imp id (fun h2 => by omega)

/-! ## Claim theorems -/

/-- C1: `bind_exact` (`register_mangled`) on a collision is claimed to
bind the probed free name and return it. The code instead re-adds the
already-taken base name (line 54), so with `add` per its contract the call
raises `NameCollision`: on a namespace where `f` is bound, `f_1` is free,
yet `register_mangled("f", obj)` errors instead of binding and returning
`f_1`. The collision-free half of the claim does hold (third conjunct). -/
theorem bind_exact_collision_raises :
    registerMangled { ns := { occupied := [], binds := [("f", Obj.blob 0)] }, counter := [] }
        "f" (.blob 1) = .error .nameCollision ∧
    CtxNamespace.mem { occupied := [], binds := [("f", Obj.blob 0)] } "f_1" = false ∧
    registerMangled (initState []) "f" (.blob 0) =
      .ok ("f", { ns := { occupied := [], binds := [("f", Obj.blob 0)] }, counter := [] }) :=
  ⟨rfl, rfl, rfl⟩

/-- C2 counterexample: synthesizing a plan whose root is a Constant
holding `42` does NOT yield an empty capture table — the table carries the
unconditional `_closure_signature` entry. -/
theorem constant_capture_table_not_empty :
    produceCode (.constant (.vint 42)) "f" ["x"] =
      .ok (renderSrc "f" ["x"] "42", [("_closure_signature", Obj.sig ["x"])]) ∧
    [("_closure_signature", Obj.sig ["x"])] ≠ ([] : List (String × Obj)) :=
  ⟨rfl, by simp⟩

/-- C2 (amended): synthesizing a Constant holding `42` yields source text
containing the literal `42` and a capture table whose only entry is the
unconditional `_closure_signature` binding (no constant capture);
synthesizing a Constant holding a non-literal object yields exactly one
entry besides `_closure_signature`, bound to that object, and source text
referencing its allocated name `constant_0`. -/
theorem constant_literal_vs_capture (cn : String) (params : List String) (uid : Nat)
    (hp1 : "_closure_signature" ∉ params) (hp2 : "constant_0" ∉ params) :
    (produceCode (.constant (.vint 42)) cn params =
        .ok (renderSrc cn params "42", [("_closure_signature", .sig params)]) ∧
      ∃ l r2, renderSrc cn params "42" = l ++ ("42" ++ r2)) ∧
    (produceCode (.constant (.blob uid)) cn params =
        .ok (renderSrc cn params "constant_0",
          [("_closure_signature", .sig params), ("constant_0", .blob uid)]) ∧
      ∃ l r2, renderSrc cn params "constant_0" = l ++ ("constant_0" ++ r2)) := by
  refine ⟨⟨?_, renderSrcPre cn params, renderSrcPost cn, rfl⟩,
    ⟨?_, renderSrcPre cn params, renderSrcPost cn, rfl⟩⟩
  · have h42 : toString (42 : Int) = "42" := rfl
    simp [produceCode, CtxNamespace.add, CtxNamespace.mem, hp1, genPlan, getLiteralExpr,
      h42, unparse]
  · have hs : ("constant_" ++ toString (0 : Nat) : String) = "constant_0" := rfl
    simp [produceCode, CtxNamespace.add, CtxNamespace.mem, hp1, hp2, genPlan, getLiteralExpr,
      registerNextId, registerMangled, GenState.getCount, GenState.bumpCount, hs, unparse]

/-- C2 witness: the amended statement at a concrete signature. -/
theorem constant_literal_vs_capture_witness :
    produceCode (.constant (.vint 42)) "fn" ["y"] =
      .ok (renderSrc "fn" ["y"] "42", [("_closure_signature", Obj.sig ["y"])]) ∧
    produceCode (.constant (.blob 7)) "fn" ["y"] =
      .ok (renderSrc "fn" ["y"] "constant_0",
        [("_closure_signature", Obj.sig ["y"]), ("constant_0", Obj.blob 7)]) :=
  ⟨(constant_literal_vs_capture "fn" ["y"] 7 (by decide) (by decide)).1.1,
   (constant_literal_vs_capture "fn" ["y"] 7 (by decide) (by decide)).2.1⟩

/-- C3: for every sequence of `allocate` (`register_next_id`) /
`bind_exact` (`register_mangled`) calls against one generator state whose
namespace is pre-occupied with the target signature's parameter names,
every returned name is distinct from all earlier returned names and from
every parameter name. -/
theorem hygienic_naming (params : List String) (ops : List AllocOp) :
    (runOps (initState params) ops).1.Nodup ∧
      ∀ m ∈ (runOps (initState params) ops).1, m ∉ params := by
  obtain ⟨hnd, hfresh⟩ := runOps_spec ops (initState params)
  refine ⟨hnd, fun m hm hpar => ?_⟩
  have h1 := hfresh m hm
  have h2 : (initState params).ns.mem m = true :=
    CtxNamespace.mem_of_occupied [] hpar
  rw [h1] at h2
  exact Bool.false_ne_true h2

/-- C3 witness: a concrete call sequence returns pairwise distinct names
avoiding the parameter name. -/
theorem hygienic_naming_witness :
    (runOps (initState ["x"])
      [.nextId "constant" (.blob 0), .mangled "f" (.blob 1), .nextId "constant" (.blob 2)]).1.Nodup ∧
    "f" ∉ ["x"] :=
  ⟨(hygienic_naming ["x"]
      [.nextId "constant" (.blob 0), .mangled "f" (.blob 1), .nextId "constant" (.blob 2)]).1,
   (hygienic_naming ["x"]
      [.nextId "constant" (.blob 0), .mangled "f" (.blob 1), .nextId "constant" (.blob 2)]).2
      "f" (by decide)⟩

/-- C4: an item accessor whose key has a safe literal rendering is claimed
to emit the key as that literal (key `1` yielding `x[1]`). The template on
line 167 of the source interpolates `{literal_expr!r}` — the repr of the
rendered text — so key `1` is emitted as the string literal `'1'`: the
generated subscript carries `pyRepr "1"` (which differs from `"1"`) and
unparses to `x['1']`. The no-literal fallback half of the claim holds
(last conjunct): a non-literal key allocates `accessor_0` bound to the
getter and emits `accessor_0(x)`. -/
theorem item_accessor_literal_key_eval :
    genPlan (initState ["x"]) (.accessor (.parameter "x") (.item (.vint 1) (.blob 5))) =
      .ok (.subscript (.name "x") (pyRepr "1"), initState ["x"]) ∧
    unparse (.subscript (.name "x") (pyRepr "1")) = "x[" ++ pyRepr "1" ++ "]" ∧
    pyRepr "1" ≠ "1" ∧
    genPlan (initState ["x"]) (.accessor (.parameter "x") (.item (.blob 3) (.blob 5))) =
      .ok (.call (.name "accessor_0") (.cons (.name "x") .nil) .nil,
        { ns := { occupied := ["x"], binds := [("accessor_0", Obj.blob 5)] },
          counter := [("accessor", 1)] }) :=
  ⟨rfl, rfl, by decide, rfl⟩

/-- C5: a function-call node whose callable is the designated identity
function `as_is_stub` and whose single argument slot is a positional slot
holding a parameter reference lowers to the same expression as the bare
parameter reference, leaving the state (hence the capture table)
untouched. -/
theorem identity_passthrough_elimination (st : GenState) (pname : String) :
    genPlan st (.function asIsStub (.cons (.positional (.parameter pname)) .nil)) =
      genPlan st (.parameter pname) ∧
    genPlan st (.function asIsStub (.cons (.positional (.parameter pname)) .nil)) =
      .ok (.name pname, st) := by
  refine ⟨genPlan_function_identity st (.parameter pname), ?_⟩
  rw [genPlan_function_identity]
  simp [genPlan]

/-- C6: a descriptor accessor whose attribute name is a valid identifier
lowers to dotted-member syntax on the lowered target; one whose name is
not a valid identifier lowers to a `getattr` call with the name as a
string literal — never to dotted syntax. The claim's two examples are
instances: `value` is an identifier, `123bad` is not. -/
theorem descriptor_accessor_choice (st : GenState) (t : Plan) (g : Obj)
    (te : PyExpr) (st1 : GenState) (ht : genPlan st t = .ok (te, st1)) :
    (∀ attr, isPyIdent attr = true →
      genPlan st (.accessor t (.descriptor attr g)) = .ok (.attribute te attr, st1)) ∧
    (∀ attr, isPyIdent attr = false →
      genPlan st (.accessor t (.descriptor attr g)) =
        .ok (.call (.name "getattr") (.cons te (.cons (.lit (pyRepr attr)) .nil)) .nil, st1)) ∧
    isPyIdent "value" = true ∧ isPyIdent "123bad" = false := by
  refine ⟨?_, ?_, by decide, by decide⟩
  · intro attr hattr
    simp [genPlan, ht, hattr]
  · intro attr hattr
    simp [genPlan, ht, hattr]

/-- C6 witness: the descriptor choice at the two concrete attribute
names of the claim. -/
theorem descriptor_accessor_choice_witness :
    genPlan (initState ["x"]) (.accessor (.parameter "x") (.descriptor "value" (.blob 9))) =
      .ok (.attribute (.name "x") "value", initState ["x"]) ∧
    genPlan (initState ["x"]) (.accessor (.parameter "x") (.descriptor "123bad" (.blob 9))) =
      .ok (.call (.name "getattr")
        (.cons (.name "x") (.cons (.lit (pyRepr "123bad")) .nil)) .nil, initState ["x"]) :=
  ⟨(descriptor_accessor_choice (initState ["x"]) (.parameter "x") (.blob 9) (.name "x")
      (initState ["x"]) rfl).1 "value" (by decide),
   (descriptor_accessor_choice (initState ["x"]) (.parameter "x") (.blob 9) (.name "x")
      (initState ["x"]) rfl).2.1 "123bad" (by decide)⟩

/-- C7: if the providers before `p` all have rejecting checkers, `p`'s
checker accepts and `p` answers, then `resolve` returns exactly `p`'s
answer and invokes only `p` (index `pre.length`): no provider after `p`
is invoked. -/
theorem first_match_wins {ρ α ε : Type} (pre post : List (ChainProvider ρ α ε))
    (p : ChainProvider ρ α ε) (r : ρ) (a : α)
    (hpre : ∀ q ∈ pre, q.accepts r = false)
    (hacc : p.accepts r = true) (hans : p.attempt r = .answer a) :
    resolve (pre ++ p :: post) r = (.found a, [pre.length]) := by
  rw [resolve, resolveFrom_skip r pre (p :: post) 0 hpre]
  simp [resolveFrom, hacc, hans]

/-- C7 witness: a concrete three-provider chain where the middle provider
is the first acceptor and answers. -/
theorem first_match_wins_witness :
    resolve ([⟨fun _ => false, fun _ => .answer 1⟩] ++
      (⟨fun _ => true, fun _ => .answer 7⟩ : ChainProvider Nat Nat Nat) ::
      [⟨fun _ => true, fun _ => .failure 3⟩]) 0 = (.found 7, [1]) :=
  first_match_wins [⟨fun _ => false, fun _ => .answer 1⟩]
    [⟨fun _ => true, fun _ => .failure 3⟩] ⟨fun _ => true, fun _ => .answer 7⟩ 0 7
    (by intro q hq; rw [List.mem_singleton] at hq; subst hq; rfl) rfl rfl

/-- C8: when every accepting provider refuses, `resolve` ends in
`NoProviderFound` with no answer fabricated; and a non-refusal error from
the first accepting provider that fails propagates unchanged, with no
provider after it invoked (every invoked index is at most the failing
provider's). -/
theorem exhausted_or_fatal {ρ α ε : Type} (r : ρ) :
    (∀ chain : List (ChainProvider ρ α ε),
      (∀ q ∈ chain, q.accepts r = true → ∃ s, q.attempt r = .refusal s) →
      (resolve chain r).1 = .noProviderFound) ∧
    (∀ (pre post : List (ChainProvider ρ α ε)) (p : ChainProvider ρ α ε) (e : ε),
      (∀ q ∈ pre, q.accepts r = true → ∃ s, q.attempt r = .refusal s) →
      p.accepts r = true → p.attempt r = .failure e →
      (resolve (pre ++ p :: post) r).1 = .fatal e ∧
        ∀ j ∈ (resolve (pre ++ p :: post) r).2, j ≤ pre.length) := by
  constructor
  · intro chain hall
    have h := (resolveFrom_refusals r chain [] 0 hall).1
    rw [List.append_nil] at h
    rw [resolve, h]
    simp [resolveFrom]
  · intro pre post p e hpre hacc hfail
    obtain ⟨h1, h2⟩ := resolveFrom_refusals r pre (p :: post) 0 hpre
    constructor
    · rw [resolve, h1]
      simp [resolveFrom, hacc, hfail]
    · intro j hj
      rcases h2 j hj with hin | hlt
      · simp [resolveFrom, hacc, hfail] at hin
        omega
      · omega

/-- C8 witness: a chain of one accepting refuser ends in
`NoProviderFound`; with a failing provider appended after the refuser, the
error propagates and only indices up to the failer are invoked. -/
theorem exhausted_or_fatal_witness :
    (resolve [(⟨fun _ => true, fun _ => .refusal "no"⟩ : ChainProvider Nat Nat Nat)] 0).1 =
      .noProviderFound ∧
    (resolve ([⟨fun _ => true, fun _ => .refusal "no"⟩] ++
      (⟨fun _ => true, fun _ => .failure 3⟩ : ChainProvider Nat Nat Nat) ::
      [⟨fun _ => true, fun _ => .answer 9⟩]) 0).1 = .fatal 3 :=
  ⟨(exhausted_or_fatal 0).1 [⟨fun _ => true, fun _ => .refusal "no"⟩]
    (by intro q hq _; rw [List.mem_singleton] at hq; subst hq; exact ⟨"no", rfl⟩),
   ((exhausted_or_fatal 0).2 [⟨fun _ => true, fun _ => .refusal "no"⟩]
    [⟨fun _ => true, fun _ => .answer 9⟩] ⟨fun _ => true, fun _ => .failure 3⟩ 3
    (by intro q hq _; rw [List.mem_singleton] at hq; subst hq; exact ⟨"no", rfl⟩)
    rfl rfl).1⟩

/-- C9: for every plan, closure name and signature on which `produce_code`
succeeds, the returned capture table binds `_closure_signature` to the
signature object (added unconditionally before lowering) and is therefore
never empty. -/
theorem closure_signature_always_captured (plan : Plan) (cn : String) (params : List String)
    (src : String) (caps : List (String × Obj))
    (h : produceCode plan cn params = .ok (src, caps)) :
    List.lookup "_closure_signature" caps = some (.sig params) ∧ caps ≠ [] := by
  obtain ⟨l, hc⟩ := produceCode_ok h
  subst hc
  exact ⟨by simp [List.lookup], by simp⟩

/-- C9 witness: a plan lowering to a bare parameter reference still yields
the `_closure_signature` capture. -/
theorem closure_signature_always_captured_witness :
    List.lookup "_closure_signature" [("_closure_signature", Obj.sig ["x"])] =
      some (Obj.sig ["x"]) ∧
    ([("_closure_signature", Obj.sig ["x"])] : List (String × Obj)) ≠ [] :=
  closure_signature_always_captured (.parameter "x") "f" ["x"]
    (renderSrc "f" ["x"] "x") [("_closure_signature", Obj.sig ["x"])] rfl

/-- C10: the identity-passthrough elimination fires only on a
single-positional-argument call of `as_is_stub`; for any other argument
shape (keyword slot, unpack slot, other arity) the call is lowered as an
ordinary call whose function name is allocated in the namespace and
recorded in the capture table. -/
theorem identity_guard_strict (st : GenState) (args : ArgList)
    (hnot : ∀ e0, args ≠ .cons (.positional e0) .nil)
    (n : String) (st1 : GenState)
    (hreg : registerMangled st "as_is_stub" asIsStub = .ok (n, st1))
    (ps : PyArgs) (ks : PyKws) (st2 : GenState)
    (hargs : genArgs st1 args = .ok (ps, ks, st2)) :
    genPlan st (.function asIsStub args) = .ok (.call (.name n) ps ks, st2) ∧
      n = "as_is_stub" ∧ ("as_is_stub", asIsStub) ∈ st2.ns.binds := by
  obtain ⟨hn, hfree, hocc, hb1, hcnt⟩ := registerMangled_ok hreg
  obtain ⟨hocc2, l, hb2⟩ := genArgs_mono st1 args ps ks st2 hargs
  refine ⟨?_, hn, ?_⟩
  · rw [genPlan_function_not_single st asIsStub args hnot, genTail]
    have hrf : registerFunc st asIsStub = registerMangled st "as_is_stub" asIsStub := rfl
    rw [hrf, hreg]
    dsimp only
    rw [hargs]
  · rw [hb2, hb1]
    simp

/-- C10 witness: an `as_is_stub` call with one keyword argument is lowered
as an ordinary call capturing `as_is_stub`. -/
theorem identity_guard_strict_witness :
    genPlan (initState ["x"]) (.function asIsStub (.cons (.keyword "k" (.parameter "x")) .nil)) =
      .ok (.call (.name "as_is_stub") .nil (.cons (some "k") (.name "x") .nil),
        { ns := { occupied := ["x"], binds := [("as_is_stub", asIsStub)] }, counter := [] }) ∧
    "as_is_stub" = "as_is_stub" ∧
    ("as_is_stub", asIsStub) ∈
      ({ ns := { occupied := ["x"], binds := [("as_is_stub", asIsStub)] },
         counter := [] } : GenState).ns.binds :=
  identity_guard_strict (initState ["x"]) (.cons (.keyword "k" (.parameter "x")) .nil)
    (by intro e0 h; simp at h) "as_is_stub"
    { ns := { occupied := ["x"], binds := [("as_is_stub", asIsStub)] }, counter := [] }
    rfl .nil (.cons (some "k") (.name "x") .nil)
    { ns := { occupied := ["x"], binds := [("as_is_stub", asIsStub)] }, counter := [] }
    rfl

end Adaptix
